import Mathlib

/-!
Shallow embedding of `screenshot-rs` (src/lib.rs): a cross-platform screen
capture library.  The shared `Screenshot` buffer type and its pixel lookup
are translated directly; each platform backend (`ffi::get_screenshot` for
linux/X11, macOS/CoreGraphics, windows/GDI) is translated as a pure function
of an explicit environment recording the responses of the native subsystem.
Bytes are modelled as `Nat` (the `u8` values of the source, always in 0..256 as
produced by the native layer or the literal 255).
-/

namespace ScreenshotRs

/-- The `Pixel` struct: fields in declaration order a, r, g, b (src/lib.rs). -/
structure Pixel where
  a : Nat
  r : Nat
  g : Nat
  b : Nat
deriving DecidableEq, Repr

/-- The `Screenshot` struct: owned byte buffer plus shape metadata (src/lib.rs). -/
structure Screenshot where
  data : List Nat
  height : Nat
  width : Nat
  row_len : Nat
  pixel_width : Nat
deriving DecidableEq, Repr

/-- Outcome of `Screenshot::get_pixel`: the source either panics on its
explicit bounds check, performs unchecked reads that fall outside the
buffer (undefined behaviour, modelled as `oobRead`), or returns a pixel. -/
inductive PixelResult where
  | panic
  | oobRead
  | ok (p : Pixel)
deriving DecidableEq, Repr

/-- Embedding of `Screenshot::get_pixel`:
`idx = row * row_len + col * pixel_width`; the source panics when
`idx > data.len()` (a non-strict comparison), then performs four
`get_unchecked` reads at `idx+3, idx+2, idx+1, idx`.  All four reads are
in bounds exactly when `idx + 3 < data.len()`; otherwise at least one read
is past the end of the buffer, which we model as `oobRead`. -/
def Screenshot.get_pixel (s : Screenshot) (row col : Nat) : PixelResult :=
  let idx := row * s.row_len + col * s.pixel_width
  if idx > s.data.length then .panic
  else if idx + 3 < s.data.length then
    .ok { a := s.data.getD (idx + 3) 0
          r := s.data.getD (idx + 2) 0
          g := s.data.getD (idx + 1) 0
          b := s.data.getD idx 0 }
  else .oobRead

/-- Embedding of the linux backend scan
`data.iter().enumerate().any(|(n, x)| n % 4 == 3 && *x != 0)`,
with `n` the running index starting from the given value. -/
def hasAlphaAux : Nat → List Nat → Bool
  | _, [] => false
  | n, x :: xs => (n % 4 == 3 && x != 0) || hasAlphaAux (n + 1) xs

/-- Embedding of the linux backend repair loop: walk the buffer with counter `n`,
overwriting each byte whose index satisfies `n % 4 == 3` with 255. -/
def setAlpha : Nat → List Nat → List Nat
  | _, [] => []
  | n, x :: xs => (if n % 4 = 3 then 255 else x) :: setAlpha (n + 1) xs

/-- Embedding of the linux backend alpha fix (src/lib.rs, `// Fix Alpha channel ...`):
if no byte at an index congruent to 3 mod 4 is non-zero, rewrite every such
byte to 255; otherwise leave the buffer untouched. -/
def alphaRepair (data : List Nat) : List Nat :=
  if hasAlphaAux 0 data then data else setAlpha 0 data

/-- Embedding of `ffi::flip_rows` (windows): reorder rows last to first.  The source
allocates an uninitialized output of `data.len()` bytes and writes
`new_data[row_i*row_len + byte_i] = data[(height-row_i-1)*row_len + byte_i]`
for `row_i < height`, `byte_i < row_len`.  Output position `k` below
corresponds to `row_i = k / row_len`, `byte_i = k % row_len`.  Positions
`k ≥ height * row_len` are never written and keep their uninitialized
contents (modelled as 0); all callers in the source, and every theorem
below, satisfy `data.len() = height * row_len`, where no such position
exists (with `data.len() < height * row_len` the source indexes out of
bounds and panics, a domain no caller reaches). -/
def flip_rows (data : List Nat) (height row_len : Nat) : List Nat :=
  (List.range data.length).map fun k =>
    if k < height * row_len then
      data.getD ((height - k / row_len - 1) * row_len + k % row_len) 0
    else 0

/-- Outcome of a backend capture.  `panic` models a Rust panic
(`Vec` index out of bounds); `ub` models undefined behaviour in the
native layer that the source triggers without any check (dereferencing
the invalid pointer that `XScreenOfDisplay` returns for an out-of-range
screen index). -/
inductive CapResult where
  | ok (s : Screenshot)
  | err (e : String)
  | panic
  | ub
deriving DecidableEq, Repr

/-- Whether a capture outcome is an `Err` result of the
source type `ScreenResult` (a Rust `Result` of `Screenshot` and a static
error string). -/
def CapResult.isErr : CapResult → Bool
  | .err _ => true
  | _ => false

/-- The `Screenshot` carried by an `Ok` outcome, if any. -/
def CapResult.toOption : CapResult → Option Screenshot
  | .ok s => some s
  | _ => none

/-! ## linux backend (X11) -/

/-- The `XImage` the native layer hands back to the linux backend:
the fields the source reads, plus the backing buffer bytes
(`img.data`, byte `i` read as `buf.getD i 0`; the source reads it
through `slice::from_raw_parts`). -/
structure XImageData where
  width : Nat
  height : Nat
  bytes_per_line : Nat
  bits_per_pixel : Nat
  buf : List Nat
deriving DecidableEq, Repr

/-- Native environment of the linux backend: the number of screens the
display connection knows about, and the image `XGetImage` returns for the
root window.  The model assumes `XOpenDisplay` succeeds (the source never
checks it; a null display would be native undefined behaviour). -/
structure XEnv where
  nscreens : Nat
  img : XImageData
deriving DecidableEq, Repr

/-- Embedding of linux `ffi::get_screenshot`.  `XScreenOfDisplay` with an out-of-range
index yields an invalid pointer that `XRootWindowOfScreen` dereferences:
the source performs no range check, so that path is native undefined
behaviour (`ub`).  In range: read the image dimensions and depth, reject
a non-byte-aligned depth, copy `width * height * pixel_width` bytes out of
the native buffer, then run the alpha fix.  `row_len` is taken verbatim
from the native `bytes_per_line`. -/
def linux_get_screenshot (env : XEnv) (screen : Nat) : CapResult :=
  if screen < env.nscreens then
    let height := env.img.height
    let width := env.img.width
    let row_len := env.img.bytes_per_line
    let pixel_bits := env.img.bits_per_pixel
    if pixel_bits % 8 ≠ 0 then .err "Pixels aren\x27t integral bytes."
    else
      let pixel_width := pixel_bits / 8
      let size := width * height * pixel_width
      let data := (List.range size).map fun i => env.img.buf.getD i 0
      let data := alphaRepair data
      .ok { data := data, height := height, width := width,
            row_len := row_len, pixel_width := pixel_width }
  else .ub

/-! ## macOS backend (CoreGraphics) -/

/-- Native environment of the macOS backend: the active display list, the
error status of the two `CGGetActiveDisplayList` calls, and the image the
compositor returns for the selected display (its reported dimensions,
stride, depth, and the `CFData` copied from its data provider, whose
reported length is `cf_len` and whose byte `i` is `cf_buf.getD i 0`). -/
structure MacEnv where
  displays : List Nat
  list_err1 : Bool
  list_err2 : Bool
  img_width : Nat
  img_height : Nat
  img_row_len : Nat
  img_bits_per_pixel : Nat
  cf_len : Nat
  cf_buf : List Nat
deriving DecidableEq, Repr

/-- Which native handles the macOS backend created and released during a
call: the `CGImage` snapshot and the copied `CFData`. -/
structure MacTrace where
  img_created : Bool
  img_released : Bool
  data_created : Bool
  data_released : Bool
deriving DecidableEq, Repr

/-- Embedding of macOS `ffi::get_screenshot`, instrumented with the resource trace.
Source order: count displays (error check), fill the display vector —
`&mut disps[0]` panics when the count is zero — (error check), index
`disps[screen]` — a `Vec` index that panics when `screen` is out of
range — then `CGDisplayCreateImage`, depth check (early `return Err`
with no `CGImageRelease`), `CGDataProviderCopyData`, length-consistency
check, and finally `CGImageRelease` and `CFRelease` before returning
either outcome of that last check. -/
def macos_run (env : MacEnv) (screen : Nat) : CapResult × MacTrace :=
  let noRes : MacTrace :=
    { img_created := false, img_released := false,
      data_created := false, data_released := false }
  if env.list_err1 then (.err "Error getting number of displays.", noRes)
  else if env.displays.length = 0 then (.panic, noRes)
  else if env.list_err2 then (.err "Error getting list of displays.", noRes)
  else if screen < env.displays.length then
    -- disp_id := displays[screen]; cg_img := CGDisplayCreateImage disp_id
    let width := env.img_width
    let height := env.img_height
    let row_len := env.img_row_len
    let pixel_bits := env.img_bits_per_pixel
    if pixel_bits % 8 ≠ 0 then
      (.err "Pixels aren\x27t integral bytes.",
       { img_created := true, img_released := false,
         data_created := false, data_released := false })
    else
      let raw_len := env.cf_len
      let done : MacTrace :=
        { img_created := true, img_released := true,
          data_created := true, data_released := true }
      if width * height * pixel_bits ≠ raw_len * 8 then
        (.err "Image size is inconsistent with W*H*D.", done)
      else
        let data := (List.range raw_len).map fun i => env.cf_buf.getD i 0
        (.ok { data := data, height := height, width := width,
               row_len := row_len, pixel_width := pixel_bits / 8 }, done)
  else (.panic, noRes)

/-- Projection of `macos_run` to the returned `ScreenResult`. -/
def macos_get_screenshot (env : MacEnv) (screen : Nat) : CapResult :=
  (macos_run env screen).1

/-! ## windows backend (GDI) -/

/-- Native environment of the windows backend: virtual-desktop metrics, the
failure status of each GDI step the source checks, and the bytes
`GetDIBits` deposits in the destination buffer (byte `i` is
`bits.getD i 0`; the source never checks the `GetDIBits` return value). -/
structure WinEnv where
  width : Nat
  height : Nat
  dc_fail : Bool
  bmp_fail : Bool
  sel_fail : Bool
  blt_fail : Bool
  bits : List Nat
deriving DecidableEq, Repr

/-- Embedding of windows `ffi::get_screenshot`.  The `_screen` argument is declared but
never read.  `scale = 1`, so the `BitBlt` branch runs, `pixel_width = 4`,
the buffer is `width * height * 4` bytes filled by `GetDIBits`, and
`flip_rows` reorders the bottom-up rows with `row_len = width * 4`. -/
def win_get_screenshot (env : WinEnv) (_screen : Nat) : CapResult :=
  if env.dc_fail then .err "Can\x27t get a Windows display."
  else if env.bmp_fail then .err "Can\x27t create a Windows buffer"
  else if env.sel_fail then .err "Can\x27t select Windows buffer."
  else if env.blt_fail then .err "Failed to copy screen to Windows buffer"
  else
    let pixel_width := 4
    let size := env.width * env.height * pixel_width
    let data := (List.range size).map fun i => env.bits.getD i 0
    let data := flip_rows data env.height (env.width * pixel_width)
    .ok { data := data, height := env.height, width := env.width,
          row_len := env.width * pixel_width, pixel_width := pixel_width }

/-! ## Helper lemmas -/

theorem getD_map_range (n : Nat) (f : Nat → Nat) {k : Nat} (hk : k < n) :
    ((List.range n).map f).getD k 0 = f k := by
  have hk2 : k < ((List.range n).map f).length := by simpa using hk
  rw [List.getD_eq_getElem _ _ hk2]
  simp

theorem flip_rows_length (data : List Nat) (height row_len : Nat) :
    (flip_rows data height row_len).length = data.length := by
  simp [flip_rows]

theorem flip_rows_getD (data : List Nat) (height row_len k : Nat)
    (hlen : data.length = height * row_len) (hk : k < height * row_len) :
    (flip_rows data height row_len).getD k 0 =
      data.getD ((height - k / row_len - 1) * row_len + k % row_len) 0 := by
  rw [flip_rows, hlen, getD_map_range _ _ hk, if_pos hk]

theorem flip_index_lt (height row_len k : Nat) (hl : 0 < row_len)
    (hk : k < height * row_len) :
    (height - k / row_len - 1) * row_len + k % row_len < height * row_len := by
  have hk2 : k < row_len * height := by rw [Nat.mul_comm]; exact hk
  have hdiv : k / row_len < height := Nat.div_lt_of_lt_mul hk2
  have hmod : k % row_len < row_len := Nat.mod_lt _ hl
  have h1 : height - k / row_len - 1 + 1 ≤ height := by
    generalize k / row_len = q at hdiv ⊢
    omega
  have h2 : (height - k / row_len - 1) * row_len + k % row_len
      < (height - k / row_len - 1 + 1) * row_len := by
    rw [Nat.succ_mul]
    exact Nat.add_lt_add_left hmod _
  exact Nat.lt_of_lt_of_le h2 (Nat.mul_le_mul_right _ h1)

theorem div_flip_index (a b row_len : Nat) (hb : b < row_len) :
    (a * row_len + b) / row_len = a := by
  rw [Nat.add_comm, Nat.add_mul_div_right _ _ (by omega : 0 < row_len),
    Nat.div_eq_of_lt hb, Nat.zero_add]

theorem mod_flip_index (a b row_len : Nat) (hb : b < row_len) :
    (a * row_len + b) % row_len = b := by
  rw [Nat.add_comm, Nat.add_mul_mod_self_right, Nat.mod_eq_of_lt hb]

theorem setAlpha_length (n : Nat) (l : List Nat) :
    (setAlpha n l).length = l.length := by
  induction l generalizing n with
  | nil => rfl
  | cons x xs ih => simp [setAlpha, ih]

theorem setAlpha_getD (n : Nat) (l : List Nat) (i : Nat) (hi : i < l.length) :
    (setAlpha n l).getD i 0 = if (n + i) % 4 = 3 then 255 else l.getD i 0 := by
  induction l generalizing n i with
  | nil => simp at hi
  | cons x xs ih =>
    cases i with
    | zero => simp [setAlpha]
    | succ m =>
      have hm : m < xs.length := by simpa using hi
      simp only [setAlpha, List.getD_cons_succ]
      rw [ih (n + 1) m hm]
      have he : n + 1 + m = n + (m + 1) := by omega
      rw [he]

theorem hasAlphaAux_eq_true (n : Nat) (l : List Nat) :
    hasAlphaAux n l = true ↔
      ∃ i, i < l.length ∧ (n + i) % 4 = 3 ∧ l.getD i 0 ≠ 0 := by
  induction l generalizing n with
  | nil => simp [hasAlphaAux]
  | cons x xs ih =>
    simp only [hasAlphaAux, Bool.or_eq_true, Bool.and_eq_true, beq_iff_eq,
      bne_iff_ne, ih]
    constructor
    · rintro (⟨h3, hx⟩ | ⟨i, hi, h3, hne⟩)
      · exact ⟨0, by simp, by simpa using h3, by simpa using hx⟩
      · refine ⟨i + 1, by simpa using hi, ?_, by simpa using hne⟩
        have he : n + (i + 1) = n + 1 + i := by omega
        rw [he]
        exact h3
    · rintro ⟨i, hi, h3, hne⟩
      cases i with
      | zero => exact Or.inl ⟨by simpa using h3, by simpa using hne⟩
      | succ m =>
        refine Or.inr ⟨m, by simpa using hi, ?_, by simpa using hne⟩
        have he : n + 1 + m = n + (m + 1) := by omega
        rw [he]
        exact h3

theorem alphaRepair_length (data : List Nat) :
    (alphaRepair data).length = data.length := by
  unfold alphaRepair
  split
  · rfl
  · exact setAlpha_length _ _

theorem linux_ok_inversion (env : XEnv) (screen : Nat) (s : Screenshot)
    (heq : linux_get_screenshot env screen = .ok s) :
    s.width = env.img.width ∧ s.height = env.img.height ∧
    s.row_len = env.img.bytes_per_line ∧
    s.pixel_width = env.img.bits_per_pixel / 8 ∧
    s.data.length = s.width * s.height * s.pixel_width := by
  by_cases hs : screen < env.nscreens
  · by_cases hb : env.img.bits_per_pixel % 8 = 0
    · have hb2 : ¬ (env.img.bits_per_pixel % 8 ≠ 0) := fun h => h hb
      simp only [linux_get_screenshot, if_pos hs, if_neg hb2,
        CapResult.ok.injEq] at heq
      subst heq
      refine ⟨rfl, rfl, rfl, rfl, ?_⟩
      rw [show (Screenshot.mk
        (alphaRepair ((List.range (env.img.width * env.img.height *
          (env.img.bits_per_pixel / 8))).map fun i => env.img.buf.getD i 0))
        env.img.height env.img.width env.img.bytes_per_line
        (env.img.bits_per_pixel / 8)).data = alphaRepair
          ((List.range (env.img.width * env.img.height *
            (env.img.bits_per_pixel / 8))).map fun i => env.img.buf.getD i 0)
        from rfl, alphaRepair_length]
      simp
    · simp [linux_get_screenshot, hs, hb] at heq
  · simp [linux_get_screenshot, hs] at heq

theorem macos_ok_inversion (env : MacEnv) (screen : Nat) (s : Screenshot)
    (heq : macos_get_screenshot env screen = .ok s) :
    s.width = env.img_width ∧ s.height = env.img_height ∧
    s.row_len = env.img_row_len ∧
    s.pixel_width = env.img_bits_per_pixel / 8 ∧
    s.data.length = s.width * s.height * s.pixel_width := by
  by_cases h1 : env.list_err1 = true
  · simp [macos_get_screenshot, macos_run, h1] at heq
  by_cases h0 : env.displays.length = 0
  · simp [macos_get_screenshot, macos_run, h1, h0] at heq
  by_cases h2 : env.list_err2 = true
  · simp [macos_get_screenshot, macos_run, h1, h0, h2] at heq
  by_cases hs : screen < env.displays.length
  · by_cases hb : env.img_bits_per_pixel % 8 = 0
    · by_cases hlen : env.img_width * env.img_height * env.img_bits_per_pixel
          = env.cf_len * 8
      · have hb2 : ¬ (env.img_bits_per_pixel % 8 ≠ 0) := fun h => h hb
        have hlen2 : ¬ (env.img_width * env.img_height * env.img_bits_per_pixel
            ≠ env.cf_len * 8) := fun h => h hlen
        simp only [macos_get_screenshot, macos_run, if_neg h1, if_neg h0,
          if_neg h2, if_pos hs, if_neg hb2, if_neg hlen2,
          CapResult.ok.injEq] at heq
        subst heq
        refine ⟨rfl, rfl, rfl, rfl, ?_⟩
        have hlr : ((List.range env.cf_len).map
            fun i => env.cf_buf.getD i 0).length = env.cf_len := by simp
        have h8 : env.img_bits_per_pixel / 8 * 8 = env.img_bits_per_pixel :=
          Nat.div_mul_cancel (Nat.dvd_of_mod_eq_zero hb)
        have h9 : env.img_width * env.img_height *
            (env.img_bits_per_pixel / 8) * 8 = env.cf_len * 8 := by
          rw [Nat.mul_assoc (env.img_width * env.img_height), h8]
          exact hlen
        have h10 : env.img_width * env.img_height *
            (env.img_bits_per_pixel / 8) = env.cf_len :=
          Nat.eq_of_mul_eq_mul_right (by omega) h9
        simpa [hlr] using h10.symm
      · simp [macos_get_screenshot, macos_run, h1, h0, h2, hs, hb, hlen]
          at heq
    · simp [macos_get_screenshot, macos_run, h1, h0, h2, hs, hb] at heq
  · simp [macos_get_screenshot, macos_run, h1, h0, h2, hs] at heq

theorem win_ok_inversion (env : WinEnv) (screen : Nat) (s : Screenshot)
    (heq : win_get_screenshot env screen = .ok s) :
    s.width = env.width ∧ s.height = env.height ∧
    s.row_len = env.width * 4 ∧ s.pixel_width = 4 ∧
    s.data.length = s.width * s.height * s.pixel_width := by
  by_cases h1 : env.dc_fail = true
  · simp [win_get_screenshot, h1] at heq
  by_cases h2 : env.bmp_fail = true
  · simp [win_get_screenshot, h1, h2] at heq
  by_cases h3 : env.sel_fail = true
  · simp [win_get_screenshot, h1, h2, h3] at heq
  by_cases h4 : env.blt_fail = true
  · simp [win_get_screenshot, h1, h2, h3, h4] at heq
  simp only [win_get_screenshot, if_neg h1, if_neg h2, if_neg h3, if_neg h4,
    CapResult.ok.injEq] at heq
  subst heq
  refine ⟨rfl, rfl, rfl, rfl, ?_⟩
  rw [show (Screenshot.mk
    (flip_rows ((List.range (env.width * env.height * 4)).map
      fun i => env.bits.getD i 0) env.height (env.width * 4))
    env.height env.width (env.width * 4) 4).data = flip_rows
      ((List.range (env.width * env.height * 4)).map
        fun i => env.bits.getD i 0) env.height (env.width * 4) from rfl,
    flip_rows_length]
  simp

/-! ## Claims -/

/-- C4: the alpha-repair step of the linux backend: on any captured byte
buffer, if every byte at an index congruent to 3 mod 4 is zero, then after
repair every such byte equals 255 and every byte at any other index is
unchanged; if at least one byte at an index congruent to 3 mod 4 is
non-zero, the whole buffer is unchanged. -/
theorem alphaRepair_spec (data : List Nat) :
    ((∀ i, i < data.length → i % 4 = 3 → data.getD i 0 = 0) →
      (alphaRepair data).length = data.length ∧
      (∀ i, i < data.length → i % 4 = 3 → (alphaRepair data).getD i 0 = 255) ∧
      (∀ i, i < data.length → i % 4 ≠ 3 →
        (alphaRepair data).getD i 0 = data.getD i 0)) ∧
    ((∃ i, i < data.length ∧ i % 4 = 3 ∧ data.getD i 0 ≠ 0) →
      alphaRepair data = data) := by
  constructor
  · intro h0
    have hfalse : hasAlphaAux 0 data = false := by
      rw [Bool.eq_false_iff]
      intro htrue
      rcases (hasAlphaAux_eq_true 0 data).1 htrue with ⟨i, hi, h3, hne⟩
      exact hne (h0 i hi (by simpa using h3))
    have hrepair : alphaRepair data = setAlpha 0 data := by
      simp [alphaRepair, hfalse]
    rw [hrepair]
    refine ⟨setAlpha_length _ _, ?_, ?_⟩
    · intro i hi h3
      rw [setAlpha_getD 0 data i hi]
      simp [h3]
    · intro i hi h3
      rw [setAlpha_getD 0 data i hi]
      simp [h3]
  · rintro ⟨i, hi, h3, hne⟩
    have htrue : hasAlphaAux 0 data = true :=
      (hasAlphaAux_eq_true 0 data).2 ⟨i, hi, by simpa using h3, hne⟩
    simp [alphaRepair, htrue]

/-- C4 witness: the theorem applied to `[1,2,3,0]` (all-zero alpha plane,
repaired to 255) and to `[7,0,0,5]` (non-zero alpha byte, unchanged). -/
theorem alphaRepair_spec_witness :
    (alphaRepair [1,2,3,0]).length = ([1,2,3,0] : List Nat).length ∧
    (alphaRepair [1,2,3,0]).getD 3 0 = 255 ∧
    alphaRepair [7,0,0,5] = [7,0,0,5] :=
  ⟨((alphaRepair_spec [1,2,3,0]).1 (by decide)).1,
   ((alphaRepair_spec [1,2,3,0]).1 (by decide)).2.1 3 (by decide) (by decide),
   (alphaRepair_spec [7,0,0,5]).2 ⟨3, by decide, by decide, by decide⟩⟩

/-- C5: for every input buffer with `data.len() = height * row_len`,
`flip_rows` returns a buffer of the same length in which output row `i`
(bytes `i*row_len .. (i+1)*row_len`) equals input row `height-1-i`,
byte for byte. -/
theorem flip_rows_reverses (data : List Nat) (height row_len : Nat)
    (hlen : data.length = height * row_len) :
    (flip_rows data height row_len).length = data.length ∧
    ∀ i, i < height → ∀ j, j < row_len →
      (flip_rows data height row_len).getD (i * row_len + j) 0 =
        data.getD ((height - 1 - i) * row_len + j) 0 := by
  refine ⟨flip_rows_length _ _ _, ?_⟩
  intro i hi j hj
  have hk : i * row_len + j < height * row_len := by
    have h2 : i * row_len + j < (i + 1) * row_len := by
      rw [Nat.succ_mul]
      exact Nat.add_lt_add_left hj _
    exact Nat.lt_of_lt_of_le h2 (Nat.mul_le_mul_right _ hi)
  rw [flip_rows_getD _ _ _ _ hlen hk, div_flip_index _ _ _ hj,
    mod_flip_index _ _ _ hj]
  have h3 : height - i - 1 = height - 1 - i := by omega
  rw [h3]

/-- C5 witness: the theorem applied to the 3×2 buffer `[1,2,3,4,5,6]`,
reading output row 1 against input row 1 = 3-1-1. -/
theorem flip_rows_reverses_witness :
    (flip_rows [1,2,3,4,5,6] 3 2).length = ([1,2,3,4,5,6] : List Nat).length ∧
    (flip_rows [1,2,3,4,5,6] 3 2).getD (1 * 2 + 1) 0 =
      ([1,2,3,4,5,6] : List Nat).getD ((3 - 1 - 1) * 2 + 1) 0 :=
  ⟨(flip_rows_reverses [1,2,3,4,5,6] 3 2 (by decide)).1,
   (flip_rows_reverses [1,2,3,4,5,6] 3 2 (by decide)).2 1 (by decide) 1 (by decide)⟩

/-- C10: `flip_rows` preserves the buffer length, and on buffers with
`data.len() = height * row_len` it is an involution: applying it twice
returns the original buffer, so the windows row reordering is a pure
permutation that loses no bytes. -/
theorem flip_rows_involution (data : List Nat) (height row_len : Nat)
    (hlen : data.length = height * row_len) :
    (flip_rows data height row_len).length = data.length ∧
    flip_rows (flip_rows data height row_len) height row_len = data := by
  refine ⟨flip_rows_length _ _ _, ?_⟩
  rcases Nat.eq_zero_or_pos row_len with hrl | hrl
  · have hd : data = [] := by
      have h0 : data.length = 0 := by rw [hlen, hrl, Nat.mul_zero]
      exact List.eq_nil_of_length_eq_zero h0
    subst hd
    have he : flip_rows [] height row_len = [] := by simp [flip_rows]
    rw [he, he]
  · have hlen2 : (flip_rows data height row_len).length = height * row_len := by
      rw [flip_rows_length, hlen]
    apply List.ext_getElem (by rw [flip_rows_length, hlen2, hlen])
    intro i h1 h2
    have hi : i < height * row_len := by rw [← hlen]; exact h2
    rw [← List.getD_eq_getElem _ 0 h1, ← List.getD_eq_getElem _ 0 h2]
    rw [flip_rows_getD _ _ _ _ hlen2 hi]
    have hflip : (height - i / row_len - 1) * row_len + i % row_len
        < height * row_len := flip_index_lt _ _ _ hrl hi
    rw [flip_rows_getD _ _ _ _ hlen hflip,
      div_flip_index _ _ _ (Nat.mod_lt _ hrl),
      mod_flip_index _ _ _ (Nat.mod_lt _ hrl)]
    have hidiv : i / row_len < height :=
      Nat.div_lt_of_lt_mul (by rw [Nat.mul_comm]; exact hi)
    have harg : height - (height - i / row_len - 1) - 1 = i / row_len := by
      generalize i / row_len = q at hidiv ⊢
      omega
    rw [harg]
    have hdm : i / row_len * row_len + i % row_len = i := by
      rw [Nat.mul_comm]
      exact Nat.div_add_mod i row_len
    rw [hdm]

/-- C10 witness: the theorem applied to the 2×2 buffer `[9,8,7,6]`. -/
theorem flip_rows_involution_witness :
    (flip_rows [9,8,7,6] 2 2).length = ([9,8,7,6] : List Nat).length ∧
    flip_rows (flip_rows [9,8,7,6] 2 2) 2 2 = [9,8,7,6] :=
  flip_rows_involution [9,8,7,6] 2 2 (by decide)

/-- C2: for every Screenshot satisfying the canonical-image invariants
(`data.len() = row_len * height`, `row_len ≥ width * pixel_width`, pixels
of at least 4 bytes) and every valid position (`row < height`,
`col < width`), `get_pixel` returns the Pixel whose fields (a, r, g, b)
are the four bytes of `data` at `idx = row*row_len + col*pixel_width`,
decoded in ascending address order as (b, g, r, a). -/
theorem get_pixel_spec (s : Screenshot) (row col : Nat)
    (hlen : s.data.length = s.row_len * s.height)
    (hrow : s.width * s.pixel_width ≤ s.row_len)
    (hpw : 4 ≤ s.pixel_width)
    (hr : row < s.height) (hc : col < s.width) :
    s.get_pixel row col =
      .ok { a := s.data.getD (row * s.row_len + col * s.pixel_width + 3) 0,
            r := s.data.getD (row * s.row_len + col * s.pixel_width + 2) 0,
            g := s.data.getD (row * s.row_len + col * s.pixel_width + 1) 0,
            b := s.data.getD (row * s.row_len + col * s.pixel_width) 0 } := by
  have key : row * s.row_len + col * s.pixel_width + s.pixel_width
      ≤ s.data.length := by
    have h1 : col * s.pixel_width + s.pixel_width ≤ s.row_len := by
      have h2 : (col + 1) * s.pixel_width ≤ s.width * s.pixel_width :=
        Nat.mul_le_mul_right _ hc
      rw [Nat.succ_mul] at h2
      omega
    have h3 : row * s.row_len + s.row_len ≤ s.height * s.row_len := by
      have h4 : (row + 1) * s.row_len ≤ s.height * s.row_len :=
        Nat.mul_le_mul_right _ hr
      rw [Nat.succ_mul] at h4
      exact h4
    have h5 : s.row_len * s.height = s.height * s.row_len := Nat.mul_comm _ _
    omega
  have hng : ¬ (row * s.row_len + col * s.pixel_width > s.data.length) := by
    omega
  have hlt : row * s.row_len + col * s.pixel_width + 3 < s.data.length := by
    omega
  simp only [Screenshot.get_pixel]
  rw [if_neg hng, if_pos hlt]

/-- C2 witness: the theorem applied at position (0, 3) of a 4×1 image of
16 bytes, yielding the last 4 bytes decoded as (b, g, r, a). -/
theorem get_pixel_spec_witness :
    Screenshot.get_pixel
      { data := [0,1,2,3,4,5,6,7,8,9,10,11,12,13,14,15],
        height := 1, width := 4, row_len := 16, pixel_width := 4 } 0 3 =
      .ok { a := 15, r := 14, g := 13, b := 12 } := by
  have h := get_pixel_spec
    { data := [0,1,2,3,4,5,6,7,8,9,10,11,12,13,14,15],
      height := 1, width := 4, row_len := 16, pixel_width := 4 } 0 3
    (by decide) (by decide) (by decide) (by decide) (by decide)
  exact h.trans (by decide)

/-- C3 (refuting evaluation): on a 4×1 canonical image of 16 bytes
(`row_len = 16`, `pixel_width = 4`), the request (0, 4) computes
`idx = 16 = data.len()`; the non-strict bounds check `idx > data.len()`
does not fire, so instead of panicking `get_pixel` reaches its unchecked
reads at indices 16..19, outside the buffer. -/
theorem get_pixel_oob_read_reachable :
    Screenshot.get_pixel
      { data := [0,1,2,3,4,5,6,7,8,9,10,11,12,13,14,15],
        height := 1, width := 4, row_len := 16, pixel_width := 4 } 0 4 =
      .oobRead ∧
    Screenshot.get_pixel
      { data := [0,1,2,3,4,5,6,7,8,9,10,11,12,13,14,15],
        height := 1, width := 4, row_len := 16, pixel_width := 4 } 0 4 ≠
      .panic := by decide

/-- C9: the windows backend result never depends on the requested screen
index: for every native environment and any two indices `i` and `j`, the
two captures are identical (the source declares the parameter `_screen`
and never reads it, always capturing the full virtual desktop). -/
theorem win_get_screenshot_ignores_screen (env : WinEnv) (i j : Nat) :
    win_get_screenshot env i = win_get_screenshot env j := rfl

/-- C6: format inconsistencies reported by the native subsystem abort the
capture with an error: a non-byte-aligned reported depth makes the linux
and macOS backends return the depth error before copying pixel data (the
windows backend dictates a 32-bit format itself, so no depth is ever
reported to it), and a reported byte length with
`width*height*bits_per_pixel ≠ reported_length*8` makes the macOS backend
return an error rather than any image. -/
theorem format_inconsistency_aborts :
    (∀ (env : XEnv) (screen : Nat), screen < env.nscreens →
      env.img.bits_per_pixel % 8 ≠ 0 →
      linux_get_screenshot env screen =
        .err "Pixels aren\x27t integral bytes.") ∧
    (∀ (env : MacEnv) (screen : Nat),
      env.list_err1 = false → env.list_err2 = false →
      screen < env.displays.length →
      env.img_bits_per_pixel % 8 ≠ 0 →
      macos_get_screenshot env screen =
        .err "Pixels aren\x27t integral bytes.") ∧
    (∀ (env : MacEnv) (screen : Nat),
      env.list_err1 = false → env.list_err2 = false →
      screen < env.displays.length →
      env.img_width * env.img_height * env.img_bits_per_pixel
        ≠ env.cf_len * 8 →
      (macos_get_screenshot env screen).isErr = true) := by
  refine ⟨?_, ?_, ?_⟩
  · intro env screen hs hb
    simp [linux_get_screenshot, hs, hb]
  · intro env screen h1 h2 hs hb
    have hne : env.displays.length ≠ 0 := by omega
    simp [macos_get_screenshot, macos_run, h1, h2, hs, hb, hne]
  · intro env screen h1 h2 hs hmm
    have hne : env.displays.length ≠ 0 := by omega
    by_cases hb : env.img_bits_per_pixel % 8 = 0
    · simp [macos_get_screenshot, macos_run, h1, h2, hs, hne, hb, hmm,
        CapResult.isErr]
    · simp [macos_get_screenshot, macos_run, h1, h2, hs, hne, hb,
        CapResult.isErr]

/-- C6 witness: the theorem applied to a linux capture reporting 12 bits
per pixel, a macOS capture reporting 12 bits per pixel, and a macOS
capture whose reported data length (15 bytes) disagrees with
2 * 2 * 32 bits. -/
theorem format_inconsistency_aborts_witness :
    linux_get_screenshot
      { nscreens := 1,
        img := { width := 2, height := 2, bytes_per_line := 8,
                 bits_per_pixel := 12, buf := [0, 0, 0, 0] } } 0 =
      .err "Pixels aren\x27t integral bytes." ∧
    macos_get_screenshot
      { displays := [3], list_err1 := false, list_err2 := false,
        img_width := 2, img_height := 2, img_row_len := 8,
        img_bits_per_pixel := 12, cf_len := 16, cf_buf := [] } 0 =
      .err "Pixels aren\x27t integral bytes." ∧
    (macos_get_screenshot
      { displays := [3], list_err1 := false, list_err2 := false,
        img_width := 2, img_height := 2, img_row_len := 8,
        img_bits_per_pixel := 32, cf_len := 15, cf_buf := [] } 0).isErr
      = true :=
  ⟨format_inconsistency_aborts.1 _ 0 (by decide) (by decide),
   format_inconsistency_aborts.2.1 _ 0 rfl rfl (by decide) (by decide),
   format_inconsistency_aborts.2.2 _ 0 rfl rfl (by decide) (by decide)⟩

/-- C7 (refuting evaluation): injecting a non-byte-aligned depth (12 bits)
into the macOS backend: it returns the format error, but the `CGImage`
snapshot created immediately before the depth check is never released —
the early `return Err` skips `CGImageRelease`, leaking the handle, which
contradicts the exactly-once release requirement. -/
theorem macos_depth_error_leaks_image :
    macos_run
      { displays := [7], list_err1 := false, list_err2 := false,
        img_width := 2, img_height := 1, img_row_len := 8,
        img_bits_per_pixel := 12, cf_len := 8, cf_buf := [] } 0 =
      (.err "Pixels aren\x27t integral bytes.",
       { img_created := true, img_released := false,
         data_created := false, data_released := false }) := rfl

/-- C8 (counterexample): with exactly one active display, requesting
screen index 1 makes the macOS backend panic on the `disps[screen]`
vector index instead of returning an `Err` result, refuting the claim
that a defined error outcome is produced. -/
theorem out_of_range_screen_counterexample :
    macos_get_screenshot
      { displays := [7], list_err1 := false, list_err2 := false,
        img_width := 2, img_height := 2, img_row_len := 8,
        img_bits_per_pixel := 32, cf_len := 16, cf_buf := [] } 1 =
      .panic ∧
    (macos_get_screenshot
      { displays := [7], list_err1 := false, list_err2 := false,
        img_width := 2, img_height := 2, img_row_len := 8,
        img_bits_per_pixel := 32, cf_len := 16, cf_buf := [] } 1).isErr
      = false := by decide

/-- C8 (amended): an out-of-range screen index never silently captures a
default or primary display, but the failure mode is not an `Err` result:
the macOS backend panics on the out-of-bounds vector index, and the linux
backend forwards the index unchecked to the native layer, which is native
undefined behaviour (the windows backend ignores the index). -/
theorem out_of_range_screen_no_fallback :
    (∀ (env : MacEnv) (screen : Nat),
      env.list_err1 = false → env.list_err2 = false →
      env.displays.length ≤ screen →
      macos_get_screenshot env screen = .panic) ∧
    (∀ (env : XEnv) (screen : Nat), env.nscreens ≤ screen →
      linux_get_screenshot env screen = .ub) := by
  constructor
  · intro env screen h1 h2 hs
    rcases Nat.eq_zero_or_pos env.displays.length with h0 | h0
    · simp [macos_get_screenshot, macos_run, h1, h0]
    · have hne : env.displays.length ≠ 0 := by omega
      have hnl : ¬ (screen < env.displays.length) := by omega
      simp [macos_get_screenshot, macos_run, h1, h2, hne, hnl]
  · intro env screen hs
    have hnl : ¬ (screen < env.nscreens) := by omega
    simp [linux_get_screenshot, hnl]

/-- C8 witness: the theorem applied to a macOS environment with one
display at index 2, and a linux environment with one screen at index 3. -/
theorem out_of_range_screen_no_fallback_witness :
    macos_get_screenshot
      { displays := [5], list_err1 := false, list_err2 := false,
        img_width := 4, img_height := 4, img_row_len := 16,
        img_bits_per_pixel := 32, cf_len := 64, cf_buf := [] } 2 =
      .panic ∧
    linux_get_screenshot
      { nscreens := 1,
        img := { width := 2, height := 2, bytes_per_line := 8,
                 bits_per_pixel := 32, buf := [] } } 3 = .ub :=
  ⟨out_of_range_screen_no_fallback.1 _ 2 rfl rfl (by decide),
   out_of_range_screen_no_fallback.2 _ 3 (by decide)⟩

/-- C1 (counterexample): a successful linux capture whose native stride
(`bytes_per_line = 20`) exceeds `width * pixel_width = 16`: the backend
copies only `width * height * pixel_width = 32` bytes yet records
`row_len = 20`, so the returned image has
`data.len() = 32 ≠ row_len * height = 40`. -/
theorem capture_shape_counterexample :
    ((linux_get_screenshot
      { nscreens := 1,
        img := { width := 4, height := 2, bytes_per_line := 20,
                 bits_per_pixel := 32, buf := [] } } 0).toOption.map
      fun s => s.data.length == s.row_len * s.height) = some false := by
  decide

/-- C1 (amended): every successful capture by any backend returns an image
with `data.len() = width * height * pixel_width`; whenever the recorded
row stride equals `width * pixel_width` — the linux and macOS backends
record the native stride verbatim, while the windows backend sets
`row_len = width * pixel_width` by construction — the image also
satisfies `data.len() = row_len * height` and
`row_len ≥ width * pixel_width`. -/
theorem capture_shape_invariant :
    (∀ (env : XEnv) (screen : Nat) (s : Screenshot),
      linux_get_screenshot env screen = .ok s →
      s.data.length = s.width * s.height * s.pixel_width ∧
      (s.row_len = s.width * s.pixel_width →
        s.data.length = s.row_len * s.height ∧
        s.width * s.pixel_width ≤ s.row_len)) ∧
    (∀ (env : MacEnv) (screen : Nat) (s : Screenshot),
      macos_get_screenshot env screen = .ok s →
      s.data.length = s.width * s.height * s.pixel_width ∧
      (s.row_len = s.width * s.pixel_width →
        s.data.length = s.row_len * s.height ∧
        s.width * s.pixel_width ≤ s.row_len)) ∧
    (∀ (env : WinEnv) (screen : Nat) (s : Screenshot),
      win_get_screenshot env screen = .ok s →
      s.data.length = s.row_len * s.height ∧
      s.width * s.pixel_width ≤ s.row_len) := by
  refine ⟨?_, ?_, ?_⟩
  · intro env screen s heq
    obtain ⟨hw, hh, hrl, hpw, hdl⟩ := linux_ok_inversion env screen s heq
    refine ⟨hdl, fun hr => ⟨?_, ?_⟩⟩
    · rw [hdl, hr, Nat.mul_right_comm]
    · rw [hr]
  · intro env screen s heq
    obtain ⟨hw, hh, hrl, hpw, hdl⟩ := macos_ok_inversion env screen s heq
    refine ⟨hdl, fun hr => ⟨?_, ?_⟩⟩
    · rw [hdl, hr, Nat.mul_right_comm]
    · rw [hr]
  · intro env screen s heq
    obtain ⟨hw, hh, hrl, hpw, hdl⟩ := win_ok_inversion env screen s heq
    constructor
    · rw [hdl, hrl, hh, hw, hpw]
      exact Nat.mul_right_comm _ _ _
    · rw [hrl, hw, hpw]

/-- C1 witness: the theorem applied to a linux capture of a 2×2,
32-bit-per-pixel image whose native stride 8 equals
`width * pixel_width`. -/
theorem capture_shape_invariant_witness :
    (Screenshot.mk [0,0,0,255,0,0,0,255,0,0,0,255,0,0,0,255]
        2 2 8 4).data.length =
      (Screenshot.mk [0,0,0,255,0,0,0,255,0,0,0,255,0,0,0,255]
        2 2 8 4).row_len *
      (Screenshot.mk [0,0,0,255,0,0,0,255,0,0,0,255,0,0,0,255]
        2 2 8 4).height ∧
    (Screenshot.mk [0,0,0,255,0,0,0,255,0,0,0,255,0,0,0,255]
        2 2 8 4).width *
      (Screenshot.mk [0,0,0,255,0,0,0,255,0,0,0,255,0,0,0,255]
        2 2 8 4).pixel_width ≤
      (Screenshot.mk [0,0,0,255,0,0,0,255,0,0,0,255,0,0,0,255]
        2 2 8 4).row_len :=
  (capture_shape_invariant.1
    { nscreens := 1,
      img := { width := 2, height := 2, bytes_per_line := 8,
               bits_per_pixel := 32, buf := [] } } 0
    (Screenshot.mk [0,0,0,255,0,0,0,255,0,0,0,255,0,0,0,255] 2 2 8 4)
    (by decide)).2 (by decide)

end ScreenshotRs
